import Mathlib

/-
Verification of the BK Spiritual Chart backend's core logic: the daily-record
upsert and the per-period progress aggregation.

The repository contains two variants of the backend:
  * `src/server.js` ("ULTIMATE FIXED VERSION"): progress windows are rolling
    spans of 1/7/30/365 days ending nowhere (the SQL filter is only
    `date >= start`), and the reported percentage is `Math.round` of the
    average effort.
  * `src/unnamed/part_000` (first document, "Full backend"): progress windows
    come from `computeRangeForPeriod` (calendar month / calendar year aware),
    the SQL filter is `date BETWEEN start AND end`, and the reported
    percentage is the exact SQL numeric average.

Dates are embedded as integer day numbers (the number of days since
1970-01-01, which is how both a SQL DATE column and a JS `Date` order days);
`daysFromCivil`/`civilFromDays` convert between (year, month, day) on the
proleptic Gregorian calendar and day numbers, so that "first day of the
current calendar month" and "subtract 6 days" are both expressible.
The stored table `daily_records` is embedded as a list of records; the
UNIQUE(member_id, point_id, date) constraint of the schema is the predicate
`UniqueKeys`.
-/

namespace BK

/-- Day number of the civil date (y, m, d) on the proleptic Gregorian
calendar, counted from 1970-01-01 (day 0). This is the standard
days-from-civil algorithm; every division below is by a positive constant,
and Lean's integer division rounds toward negative infinity for positive
divisors, so no truncation adjustment is needed. -/
def daysFromCivil (y m d : Int) : Int :=
  let y2 := if m ≤ 2 then y - 1 else y
  let era := y2 / 400
  let yoe := y2 - era * 400
  let mp := if m ≤ 2 then m + 9 else m - 3
  let doy := (153 * mp + 2) / 5 + d - 1
  let doe := yoe * 365 + yoe / 4 - yoe / 100 + doy
  era * 146097 + doe - 719468

/-- Civil date (y, m, d) of a day number: the inverse of `daysFromCivil`
(standard civil-from-days algorithm). -/
def civilFromDays (z : Int) : Int × Int × Int :=
  let z2 := z + 719468
  let era := z2 / 146097
  let doe := z2 - era * 146097
  let yoe := (doe - doe / 1460 + doe / 36524 - doe / 146096) / 365
  let y := yoe + era * 400
  let doy := doe - (365 * yoe + yoe / 4 - yoe / 100)
  let mp := (5 * doy + 2) / 153
  let d := doy - (153 * mp + 2) / 5 + 1
  let m := if mp < 10 then mp + 3 else mp - 9
  (if m ≤ 2 then y + 1 else y, m, d)

/-- Day number of the first day of the calendar month containing day `z`:
the JS `new Date(today.getFullYear(), today.getMonth(), 1)` of
`computeRangeForPeriod` (JS months are 0-based, here 1-based). -/
def firstOfMonth (z : Int) : Int :=
  daysFromCivil (civilFromDays z).1 (civilFromDays z).2.1 1

/-- Day number of January 1 of the calendar year containing day `z`:
the JS `new Date(today.getFullYear(), 0, 1)` of `computeRangeForPeriod`. -/
def firstOfYear (z : Int) : Int :=
  daysFromCivil (civilFromDays z).1 1 1

/-- ASCII lowercasing of one character, as JS `toLowerCase` acts on the
period tokens (which are ASCII). -/
def lowerChar (c : Char) : Char :=
  if 'A' ≤ c ∧ c ≤ 'Z' then Char.ofNat (c.toNat + 32) else c

/-- ASCII lowercasing of a string: JS `String.prototype.toLowerCase` on the
ASCII period tokens. -/
def lowerString (s : String) : String :=
  String.mk (s.data.map lowerChar)

/-- A row of the `points` table: `{ id SERIAL PRIMARY KEY, text TEXT,
order_num INTEGER }`. `id` is a primary key, so catalogs drawn from the
table have pairwise distinct ids. -/
structure Point where
  id : Int
  text : String
  order_num : Int
deriving DecidableEq

/-- A row of the `daily_records` table, keeping the four semantic columns
`(member_id, point_id, date, effort)`; `date` is a day number. -/
structure DailyRecord where
  member_id : Int
  point_id : Int
  date : Int
  effort : Int
deriving DecidableEq

/-- The `daily_records` table as a list of rows. -/
abbrev Store := List DailyRecord

/-- Does record `r` collide with key (m, p, d)? This is the conflict test of
the schema's UNIQUE(member_id, point_id, date) constraint. -/
def matchesKey (r : DailyRecord) (m p d : Int) : Bool :=
  (r.member_id == m) && (r.point_id == p) && (r.date == d)

/-- The unique-constraint key of a record. -/
def recordKey (r : DailyRecord) : Int × Int × Int :=
  (r.member_id, r.point_id, r.date)

/-- The schema invariant UNIQUE(member_id, point_id, date): no two rows of
the store share a key. -/
def UniqueKeys (s : Store) : Prop :=
  (s.map recordKey).Nodup

instance (s : Store) : Decidable (UniqueKeys s) := by
  unfold UniqueKeys; infer_instance

/-- POST /api/members/:memberId/daily, the SQL statement
`INSERT INTO daily_records (member_id, point_id, date, effort)
 VALUES ($1,$2,$3,$4)
 ON CONFLICT (member_id, point_id, date) DO UPDATE SET effort = $4`:
if a row with the key exists its effort is replaced, otherwise a new row is
inserted. (Under `UniqueKeys` at most one row can match; the map branch
updates every matching row, which coincides with PostgreSQL's behavior on
every store the constraint admits.) -/
def upsert (s : Store) (m p d e : Int) : Store :=
  if s.any (fun r => matchesKey r m p d) then
    s.map (fun r => if matchesKey r m p d then { r with effort := e } else r)
  else
    s ++ [{ member_id := m, point_id := p, date := d, effort := e }]

/-- JS `completed || 0` on an integer effort: 0 is falsy, every other
integer is truthy, so this is the identity on integers. -/
def jsOrZero (e : Int) : Int :=
  if e = 0 then 0 else e

/-- The upsert route body of src/unnamed/part_000, which passes
`completed || 0` as the effort. -/
def upsertRoute (s : Store) (m p d e : Int) : Store :=
  upsert s m p d (jsOrZero e)

/-- src/unnamed/part_000 `computeRangeForPeriod(period)`: the sequential
`if (period === ...)` assignments to `start` on a single immutable token,
followed by `return { start, end: today }`. Every unmatched token keeps
`start = new Date(today)`. -/
def computeRangeForPeriod (period : String) (today : Int) : Int × Int :=
  if period = "weekly" then (today - 6, today)
  else if period = "monthly" then (firstOfMonth today, today)
  else if period = "yearly" then (firstOfYear today, today)
  else (today, today)

/-- The progress route's normalization `(period || 'daily').toLowerCase()`:
an empty (falsy) token becomes "daily", then ASCII lowercasing. -/
def normPeriod (period : String) : String :=
  lowerString (if period = "" then "daily" else period)

/-- The inclusive date window the part_000 progress route queries with. -/
def windowOf (period : String) (today : Int) : Int × Int :=
  computeRangeForPeriod (normPeriod period) today

/-- The part_000 output order `ORDER BY p.order_num, p.id`. -/
def pointLe (p q : Point) : Prop :=
  p.order_num < q.order_num ∨ (p.order_num = q.order_num ∧ p.id ≤ q.id)

instance : DecidableRel pointLe := fun p q => by
  unfold pointLe; infer_instance

instance : IsTotal Point pointLe :=
  ⟨by intro a b; unfold pointLe; omega⟩

instance : IsTrans Point pointLe :=
  ⟨by intro a b c; unfold pointLe; omega⟩

/-- One element of the part_000 progress response:
`{ point_id, text, percentage }` with `percentage` the exact SQL numeric
average (`COALESCE(AVG(dr.effort)::numeric, 0)`). -/
structure ProgressEntry where
  point_id : Int
  text : String
  percentage : Rat
deriving DecidableEq

/-- The effort values of the member's records for one point inside the
inclusive window: the rows the part_000 LEFT JOIN condition
`dr.point_id = p.id AND dr.member_id = $1 AND dr.date BETWEEN $2 AND $3`
matches. -/
def matchingEfforts (s : Store) (m pid start stop : Int) : List Int :=
  (s.filter (fun r =>
    (r.point_id == pid) && (r.member_id == m) &&
      (decide (start ≤ r.date)) && (decide (r.date ≤ stop)))).map
    DailyRecord.effort

/-- SQL `COALESCE(AVG(effort), 0)`: the arithmetic mean of the values, 0
when there are none. -/
def avgOrZero (l : List Int) : Rat :=
  if l.length = 0 then 0 else (l.sum : Rat) / (l.length : Rat)

/-- GET /api/members/:memberId/progress/:period of src/unnamed/part_000:
normalize the period token, compute the window, and produce one row per
catalog point in `ORDER BY p.order_num, p.id` order, averaging the member's
in-window efforts for that point (zero when none match, via the LEFT JOIN
and COALESCE). The SQL groups by the primary key `p.id`, so on catalogs
with distinct ids this map over the sorted catalog is exact. -/
def aggregate (cat : List Point) (s : Store) (m : Int) (period : String)
    (today : Int) : List ProgressEntry :=
  (cat.insertionSort pointLe).map (fun pt =>
    { point_id := pt.id, text := pt.text,
      percentage :=
        avgOrZero (matchingEfforts s m pt.id (windowOf period today).1
          (windowOf period today).2) })

/-- src/server.js progress route: `days` is 1, overridden to 7/30/365 by the
case-sensitive comparisons `period === 'weekly' | 'monthly' | 'yearly'`. -/
def serverDays (period : String) : Int :=
  if period = "weekly" then 7
  else if period = "monthly" then 30
  else if period = "yearly" then 365
  else 1

/-- JS `Math.round`: round half toward positive infinity, i.e. the floor of
x + 1/2. For a rational n/d with d > 0 this is the floor division
(2n + d) / (2d). -/
def jsRound (q : Rat) : Int :=
  (2 * q.num + q.den) / (2 * q.den)

/-- One element of the src/server.js progress response:
`{ pointId, text, percentage: Math.round(avgEffort), records }`. -/
structure ServerProgressEntry where
  pointId : Int
  text : String
  percentage : Int
  records : Nat
deriving DecidableEq

/-- The rows the src/server.js progress query matches for one point:
`WHERE member_id = $1 AND point_id = $2 AND date >= $3` — a lower bound
only, no upper bound. -/
def serverMatchingEfforts (s : Store) (m pid start : Int) : List Int :=
  (s.filter (fun r =>
    (r.member_id == m) && (r.point_id == pid) &&
      (decide (start ≤ r.date)))).map DailyRecord.effort

/-- GET /api/members/:memberId/progress/:period of src/server.js:
`startDate = today - days + 1`, one row per catalog point
(`ORDER BY order_num`; ties are left in catalog order, which is what the
points query may return), percentage `Math.round` of
`COALESCE(AVG(effort), 0)` over `date >= startDate`. -/
def ordLe (p q : Point) : Prop :=
  p.order_num ≤ q.order_num

instance : DecidableRel ordLe := fun p q => by
  unfold ordLe; infer_instance

def serverAggregate (cat : List Point) (s : Store) (m : Int)
    (period : String) (today : Int) : List ServerProgressEntry :=
  (cat.insertionSort ordLe).map (fun pt =>
    { pointId := pt.id, text := pt.text,
      percentage :=
        jsRound (avgOrZero
          (serverMatchingEfforts s m pt.id (today - serverDays period + 1))),
      records :=
        (serverMatchingEfforts s m pt.id (today - serverDays period + 1)).length })

/-- GET /api/members/:memberId/daily/:date of src/server.js: the rows with
`member_id = $1 AND date = $2`, returned as the association
point_id => effort. No catalog point is added: points without a record on
that date are simply absent. -/
def getDailyRecords (s : Store) (m d : Int) : List (Int × Int) :=
  (s.filter (fun r => (r.member_id == m) && (r.date == d))).map
    (fun r => (r.point_id, r.effort))

/- ----------------------------------------------------------------- -/
/- Helper lemmas about the upsert.                                   -/
/- ----------------------------------------------------------------- -/

theorem matchesKey_mk (m p d e : Int) :
    matchesKey ⟨m, p, d, e⟩ m p d = true := by
  simp [matchesKey]

theorem matchesKey_iff {r : DailyRecord} {m p d : Int} :
    matchesKey r m p d = true ↔
      r.member_id = m ∧ r.point_id = p ∧ r.date = d := by
  simp [matchesKey, and_assoc]

theorem matchesKey_setEffort (r : DailyRecord) (m p d e : Int) :
    matchesKey { r with effort := e } m p d = matchesKey r m p d := rfl

theorem recordKey_eq_iff {r : DailyRecord} {m p d : Int} :
    recordKey r = (m, p, d) ↔ matchesKey r m p d = true := by
  simp [recordKey, matchesKey, Prod.ext_iff, and_assoc]

/-- The upsert leaves a row carrying exactly the written values. -/
theorem mem_upsert_self (s : Store) (m p d e : Int) :
    (⟨m, p, d, e⟩ : DailyRecord) ∈ upsert s m p d e := by
  unfold upsert
  split
  · next h =>
    rcases List.any_eq_true.mp h with ⟨a, ha, hma⟩
    refine List.mem_map.mpr ⟨a, ha, ?_⟩
    rcases matchesKey_iff.mp hma with ⟨h1, h2, h3⟩
    rw [if_pos hma]
    cases a
    simp_all
  · exact List.mem_append_right _ (List.mem_singleton.mpr rfl)

/-- After an upsert, every row colliding with the written key carries the
written effort. -/
theorem effort_of_mem_upsert {s : Store} {m p d e : Int} {r : DailyRecord}
    (hr : r ∈ upsert s m p d e) (hm : matchesKey r m p d = true) :
    r.effort = e := by
  unfold upsert at hr
  split at hr
  · rcases List.mem_map.mp hr with ⟨a, ha, h⟩
    subst h
    by_cases hma : matchesKey a m p d = true
    · simp [hma]
    · simp only [if_neg hma] at hm
      exact absurd hm hma
  · next hany =>
    rcases List.mem_append.mp hr with h1 | h1
    · exact absurd (List.any_eq_true.mpr ⟨r, h1, hm⟩) hany
    · rw [List.mem_singleton.mp h1]

theorem any_upsert (s : Store) (m p d e : Int) :
    (upsert s m p d e).any (fun r => matchesKey r m p d) = true :=
  List.any_eq_true.mpr
    ⟨⟨m, p, d, e⟩, mem_upsert_self s m p d e, matchesKey_mk m p d e⟩

/-- Under the UNIQUE(member_id, point_id, date) constraint, at most one
stored row collides with a given key. -/
theorem countP_matches_le_one {s : Store} (h : UniqueKeys s) (m p d : Int) :
    s.countP (fun r => matchesKey r m p d) ≤ 1 := by
  induction s with
  | nil => simp
  | cons a t ih =>
    simp only [UniqueKeys, List.map_cons, List.nodup_cons] at h
    obtain ⟨hna, hnt⟩ := h
    rw [List.countP_cons]
    by_cases hma : matchesKey a m p d = true
    · have ht : t.countP (fun r => matchesKey r m p d) = 0 := by
        rw [List.countP_eq_zero]
        intro r hr hmr
        apply hna
        have h1 : recordKey r = (m, p, d) := recordKey_eq_iff.mpr hmr
        have h2 : recordKey a = recordKey r :=
          (recordKey_eq_iff.mpr hma).trans h1.symm
        exact h2 ▸ List.mem_map_of_mem recordKey hr
      simp [hma, ht]
    · simpa [hma] using ih hnt

/-- Under the unique constraint, an upsert leaves exactly one row with the
written key. -/
theorem countP_upsert {s : Store} (h : UniqueKeys s) (m p d e : Int) :
    (upsert s m p d e).countP (fun r => matchesKey r m p d) = 1 := by
  unfold upsert
  split
  · next hany =>
    rw [List.countP_map]
    have heq :
        ((fun r => matchesKey r m p d) ∘ fun r =>
          if matchesKey r m p d then { r with effort := e } else r)
          = fun r => matchesKey r m p d := by
      funext a
      by_cases hma : matchesKey a m p d = true <;>
        simp [Function.comp, hma, matchesKey_setEffort]
    rw [heq]
    have hle := countP_matches_le_one h m p d
    have hpos : 0 < s.countP (fun r => matchesKey r m p d) := by
      rcases List.any_eq_true.mp hany with ⟨a, ha, hma⟩
      exact List.countP_pos_iff.mpr ⟨a, ha, hma⟩
    omega
  · next hany =>
    rw [List.countP_append]
    have h0 : s.countP (fun r => matchesKey r m p d) = 0 := by
      rw [List.countP_eq_zero]
      intro a ha hma
      exact hany (List.any_eq_true.mpr ⟨a, ha, hma⟩)
    simp [h0, matchesKey_mk]

/-- The upsert preserves the UNIQUE(member_id, point_id, date) invariant. -/
theorem uniqueKeys_upsert {s : Store} (h : UniqueKeys s) (m p d e : Int) :
    UniqueKeys (upsert s m p d e) := by
  unfold upsert
  split
  · next hany =>
    unfold UniqueKeys
    rw [List.map_map]
    have heq :
        (recordKey ∘ fun r =>
          if matchesKey r m p d then { r with effort := e } else r)
          = recordKey := by
      funext a
      by_cases hma : matchesKey a m p d = true <;>
        simp [Function.comp, hma, recordKey]
    rw [heq]
    exact h
  · next hany =>
    unfold UniqueKeys
    rw [List.map_append]
    rw [List.nodup_append]
    refine ⟨h, List.nodup_singleton _, ?_⟩
    intro k hk hk1
    simp only [List.map_cons, List.map_nil, List.mem_singleton] at hk1
    rcases List.mem_map.mp hk with ⟨r, hr, hkr⟩
    have : matchesKey r m p d = true := by
      apply recordKey_eq_iff.mp
      rw [hkr, hk1]
      rfl
    exact hany (List.any_eq_true.mpr ⟨r, hr, this⟩)

theorem upsert_of_any {s : Store} {m p d : Int}
    (h : s.any (fun r => matchesKey r m p d) = true) (e : Int) :
    upsert s m p d e =
      s.map (fun r =>
        if matchesKey r m p d then { r with effort := e } else r) := by
  unfold upsert
  rw [if_pos h]

/-- Re-running an identical upsert rewrites the same row to the same value:
the stored state does not move. -/
theorem upsert_idem (s : Store) (m p d e : Int) :
    upsert (upsert s m p d e) m p d e = upsert s m p d e := by
  rw [upsert_of_any (any_upsert s m p d e) e]
  have hfix : ∀ r ∈ upsert s m p d e,
      (if matchesKey r m p d then { r with effort := e } else r) = r := by
    intro r hr
    by_cases hma : matchesKey r m p d = true
    · rw [if_pos hma]
      have he := effort_of_mem_upsert hr hma
      cases r
      simp_all
    · rw [if_neg hma]
  calc (upsert s m p d e).map (fun r =>
          if matchesKey r m p d then { r with effort := e } else r)
      = (upsert s m p d e).map id := List.map_congr_left hfix
    _ = upsert s m p d e := List.map_id _

/- ----------------------------------------------------------------- -/
/- Claims about the upsert: C2, C3, C9.                              -/
/- ----------------------------------------------------------------- -/

/-- C2: on a store satisfying the schema's unique constraint, upserting
effort e1 and then effort e2 for the same (member, point, date) leaves
exactly one row for that key, and its effort is e2 (last write wins). -/
theorem C2_last_write_wins (s : Store) (m p d e1 e2 : Int)
    (h : UniqueKeys s) :
    (upsert (upsert s m p d e1) m p d e2).countP
        (fun r => matchesKey r m p d) = 1 ∧
    ∀ r ∈ upsert (upsert s m p d e1) m p d e2,
      matchesKey r m p d = true → r.effort = e2 :=
  ⟨countP_upsert (uniqueKeys_upsert h m p d e1) m p d e2,
   fun _ hr hm => effort_of_mem_upsert hr hm⟩

theorem C2_witness :
    UniqueKeys ([] : Store) ∧
    ((upsert (upsert [] 1 1 19797 40) 1 1 19797 90).countP
        (fun r => matchesKey r 1 1 19797) = 1 ∧
     ∀ r ∈ upsert (upsert [] 1 1 19797 40) 1 1 19797 90,
       matchesKey r 1 1 19797 = true → r.effort = 90) :=
  ⟨by decide, C2_last_write_wins [] 1 1 19797 40 90 (by decide)⟩

/-- C3: the upsert is idempotent — running it twice with the same arguments
yields the same stored state as running it once, and (under the unique
constraint) exactly one row for the key remains, carrying effort e. -/
theorem C3_upsert_idempotent (s : Store) (m p d e : Int)
    (h : UniqueKeys s) :
    upsert (upsert s m p d e) m p d e = upsert s m p d e ∧
    (upsert s m p d e).countP (fun r => matchesKey r m p d) = 1 ∧
    ∀ r ∈ upsert s m p d e, matchesKey r m p d = true → r.effort = e :=
  ⟨upsert_idem s m p d e, countP_upsert h m p d e,
   fun _ hr hm => effort_of_mem_upsert hr hm⟩

theorem C3_witness :
    UniqueKeys ([⟨2, 3, 19790, 70⟩] : Store) ∧
    (upsert (upsert [⟨2, 3, 19790, 70⟩] 1 1 19797 55) 1 1 19797 55
        = upsert [⟨2, 3, 19790, 70⟩] 1 1 19797 55 ∧
     (upsert [⟨2, 3, 19790, 70⟩] 1 1 19797 55).countP
        (fun r => matchesKey r 1 1 19797) = 1 ∧
     ∀ r ∈ upsert [⟨2, 3, 19790, 70⟩] 1 1 19797 55,
       matchesKey r 1 1 19797 = true → r.effort = 55) :=
  ⟨by decide, C3_upsert_idempotent [⟨2, 3, 19790, 70⟩] 1 1 19797 55 (by decide)⟩

/-- C9: no 0–100 range check — for every integer effort, including negative
values and values above 100, the upsert stores that value as-is: the written
row is present, every row colliding with the key carries exactly the given
effort, and the part_000 route body (`completed || 0`) stores the same state
as the plain upsert. The model has no foreign-key layer: it corresponds to
runs in which member and point exist, as the claim presupposes. -/
theorem C9_no_range_enforcement (s : Store) (m p d e : Int) :
    (⟨m, p, d, e⟩ : DailyRecord) ∈ upsert s m p d e ∧
    (∀ r ∈ upsert s m p d e, matchesKey r m p d = true → r.effort = e) ∧
    upsertRoute s m p d e = upsert s m p d e := by
  refine ⟨mem_upsert_self s m p d e,
    fun _ hr hm => effort_of_mem_upsert hr hm, ?_⟩
  unfold upsertRoute jsOrZero
  split <;> simp_all

/- ----------------------------------------------------------------- -/
/- Helper lemmas about the aggregation.                              -/
/- ----------------------------------------------------------------- -/

theorem aggregate_def (cat : List Point) (s : Store) (m : Int)
    (period : String) (today : Int) :
    aggregate cat s m period today =
      (cat.insertionSort pointLe).map (fun pt =>
        { point_id := pt.id, text := pt.text,
          percentage :=
            avgOrZero (matchingEfforts s m pt.id (windowOf period today).1
              (windowOf period today).2) }) := rfl

theorem aggregate_map_point_id (cat : List Point) (s : Store) (m : Int)
    (period : String) (today : Int) :
    (aggregate cat s m period today).map ProgressEntry.point_id
      = (cat.insertionSort pointLe).map Point.id := by
  rw [aggregate_def, List.map_map]
  rfl

/-- Every row of the progress response reports the `COALESCE(AVG(...), 0)`
of the member's in-window efforts for its point. -/
theorem percentage_of_mem_aggregate {cat : List Point} {s : Store} {m : Int}
    {period : String} {today : Int} {e : ProgressEntry}
    (he : e ∈ aggregate cat s m period today) :
    e.percentage =
      avgOrZero (matchingEfforts s m e.point_id (windowOf period today).1
        (windowOf period today).2) := by
  rw [aggregate_def] at he
  rcases List.mem_map.mp he with ⟨pt, _, h⟩
  subst h
  rfl

theorem percentage_of_mem_serverAggregate {cat : List Point} {s : Store}
    {m : Int} {period : String} {today : Int} {e : ServerProgressEntry}
    (he : e ∈ serverAggregate cat s m period today) :
    e.percentage =
      jsRound (avgOrZero
        (serverMatchingEfforts s m e.pointId (today - serverDays period + 1))) := by
  unfold serverAggregate at he
  rcases List.mem_map.mp he with ⟨pt, _, h⟩
  subst h
  rfl

/-- A member with no rows in the store matches nothing, for any point and
any window. -/
theorem matchingEfforts_of_no_member {s : Store} {m : Int}
    (h : ∀ r ∈ s, r.member_id ≠ m) (pid a b : Int) :
    matchingEfforts s m pid a b = [] := by
  unfold matchingEfforts
  rw [List.filter_eq_nil_iff.mpr, List.map_nil]
  intro r hr
  simp only [Bool.and_eq_true, beq_iff_eq, decide_eq_true_eq]
  rintro ⟨⟨⟨-, hm⟩, -⟩, -⟩
  exact absurd hm (h r hr)

theorem avgOrZero_nil : avgOrZero [] = 0 := rfl

theorem avgOrZero_singleton (e : Int) : avgOrZero [e] = (e : Rat) := by
  unfold avgOrZero
  simp

/- ----------------------------------------------------------------- -/
/- Claims about the aggregation shape: C4, C6, C7.                   -/
/- ----------------------------------------------------------------- -/

/-- C4: the aggregation always returns one row per catalog point (the rows
are a permutation of the catalog, enumerated first and folded against the
records); a point whose in-window record set is empty reports percentage 0,
and a member with no records at all gets percentage 0 on every row. -/
theorem C4_zero_fill (cat : List Point) (s : Store) (m : Int)
    (period : String) (today : Int) :
    (aggregate cat s m period today).length = cat.length ∧
    ((aggregate cat s m period today).map ProgressEntry.point_id).Perm
      (cat.map Point.id) ∧
    (∀ e ∈ aggregate cat s m period today,
      matchingEfforts s m e.point_id (windowOf period today).1
          (windowOf period today).2 = [] →
      e.percentage = 0) ∧
    ((∀ r ∈ s, r.member_id ≠ m) →
      ∀ e ∈ aggregate cat s m period today, e.percentage = 0) := by
  refine ⟨?_, ?_, ?_, ?_⟩
  · rw [aggregate_def, List.length_map, List.length_insertionSort]
  · rw [aggregate_map_point_id]
    exact (List.perm_insertionSort pointLe cat).map Point.id
  · intro e he hnil
    rw [percentage_of_mem_aggregate he, hnil, avgOrZero_nil]
  · intro h e he
    rw [percentage_of_mem_aggregate he, matchingEfforts_of_no_member h,
      avgOrZero_nil]

/-- C6: aggregate output follows the catalog's display order: the reported
point ids are exactly the catalog sorted by (order_num, id) — a sorted
permutation of the catalog — and on the claim's example catalog
[pointA(id 3, order 2), pointB(id 9, order 1)] the output lists pointB's id
before pointA's id whatever the insertion or id order was. -/
theorem C6_catalog_order (cat : List Point) (s : Store) (m : Int)
    (period : String) (today : Int) :
    (aggregate cat s m period today).map ProgressEntry.point_id
      = (cat.insertionSort pointLe).map Point.id ∧
    List.Sorted pointLe (cat.insertionSort pointLe) ∧
    (cat.insertionSort pointLe).Perm cat ∧
    (aggregate [⟨3, "pointA", 2⟩, ⟨9, "pointB", 1⟩] s m period today).map
        ProgressEntry.point_id = [9, 3] := by
  refine ⟨aggregate_map_point_id cat s m period today,
    List.sorted_insertionSort pointLe cat,
    List.perm_insertionSort pointLe cat, ?_⟩
  rw [aggregate_map_point_id]
  decide

/-- C7: aggregating a member id that owns no row of the store — in
particular a member id absent from the members table, which by the
foreign-key constraint can own no row — does not fail and is
indistinguishable from aggregating over an empty store: one row per catalog
point, all percentages 0. (The progress route never consults the members
table, so member existence cannot influence it.) -/
theorem C7_unknown_member (cat : List Point) (s : Store) (m : Int)
    (period : String) (today : Int) (h : ∀ r ∈ s, r.member_id ≠ m) :
    aggregate cat s m period today = aggregate cat [] m period today ∧
    (aggregate cat s m period today).length = cat.length ∧
    ∀ e ∈ aggregate cat s m period today, e.percentage = 0 := by
  refine ⟨?_, ?_, ?_⟩
  · rw [aggregate_def, aggregate_def]
    refine List.map_congr_left (fun pt _ => ?_)
    rw [matchingEfforts_of_no_member h]
    rfl
  · rw [aggregate_def, List.length_map, List.length_insertionSort]
  · intro e he
    rw [percentage_of_mem_aggregate he, matchingEfforts_of_no_member h,
      avgOrZero_nil]

theorem C7_witness :
    (∀ r ∈ ([⟨2, 1, 19797, 50⟩] : Store), r.member_id ≠ 1) ∧
    (aggregate [⟨1, "p", 1⟩] [⟨2, 1, 19797, 50⟩] 1 "weekly" 19797
        = aggregate [⟨1, "p", 1⟩] [] 1 "weekly" 19797 ∧
     (aggregate [⟨1, "p", 1⟩] [⟨2, 1, 19797, 50⟩] 1 "weekly" 19797).length
        = 1 ∧
     ∀ e ∈ aggregate [⟨1, "p", 1⟩] [⟨2, 1, 19797, 50⟩] 1 "weekly" 19797,
       e.percentage = 0) :=
  ⟨by decide,
   C7_unknown_member [⟨1, "p", 1⟩] [⟨2, 1, 19797, 50⟩] 1 "weekly" 19797
     (by decide)⟩

/- ----------------------------------------------------------------- -/
/- Helper lemmas about windows and rounding.                         -/
/- ----------------------------------------------------------------- -/

/-- JS Math.round is the floor of x + 1/2. -/
theorem jsRound_eq_floor (q : Rat) : jsRound q = ⌊q + 1/2⌋ := by
  have hq : q + 1/2 =
      ((2 * q.num + (q.den : Int) : Int) : Rat) / ((2 * q.den : Nat) : Rat) := by
    have hd : ((q.den : Rat)) ≠ 0 := by
      exact_mod_cast q.den_nz
    conv_lhs => rw [← Rat.num_div_den q]
    push_cast
    field_simp
    ring
  rw [hq, Rat.floor_intCast_div_natCast]
  unfold jsRound
  push_cast
  rfl

theorem jsRound_intCast (n : Int) : jsRound ((n : Int) : Rat) = n := by
  rw [jsRound_eq_floor]
  norm_num

/-- A record dated outside the inclusive window is not picked up by the
part_000 BETWEEN filter. -/
theorem matchingEfforts_cons_out {r : DailyRecord} {a b : Int}
    (h : r.date < a ∨ b < r.date) (s : Store) (m pid : Int) :
    matchingEfforts (r :: s) m pid a b = matchingEfforts s m pid a b := by
  have hneg : ((r.point_id == pid) && (r.member_id == m) &&
      (decide (a ≤ r.date)) && (decide (r.date ≤ b))) = false := by
    rcases h with h | h
    · have hd : decide (a ≤ r.date) = false :=
        decide_eq_false_iff_not.mpr (by omega)
      simp [hd]
    · have hd : decide (r.date ≤ b) = false :=
        decide_eq_false_iff_not.mpr (by omega)
      simp [hd]
  unfold matchingEfforts
  simp [List.filter_cons, hneg]

/-- Dropping an out-of-window record does not change the part_000
aggregation at all. -/
theorem aggregate_cons_out {period : String} {today : Int} {r : DailyRecord}
    (h : r.date < (windowOf period today).1 ∨
      (windowOf period today).2 < r.date)
    (cat : List Point) (s : Store) (m : Int) :
    aggregate cat (r :: s) m period today =
      aggregate cat s m period today := by
  rw [aggregate_def, aggregate_def]
  exact List.map_congr_left (fun pt _ => by rw [matchingEfforts_cons_out h])

/-- A record dated before the src/server.js start date is not picked up by
its `date >= start` filter (there is no upper bound to fail). -/
theorem serverMatchingEfforts_cons_out {r : DailyRecord} {a : Int}
    (h : r.date < a) (s : Store) (m pid : Int) :
    serverMatchingEfforts (r :: s) m pid a =
      serverMatchingEfforts s m pid a := by
  have hneg : ((r.member_id == m) && (r.point_id == pid) &&
      (decide (a ≤ r.date))) = false := by
    have hd : decide (a ≤ r.date) = false :=
      decide_eq_false_iff_not.mpr (by omega)
    simp [hd]
  unfold serverMatchingEfforts
  simp [List.filter_cons, hneg]

theorem serverAggregate_cons_out {period : String} {today : Int}
    {r : DailyRecord} (h : r.date < today - serverDays period + 1)
    (cat : List Point) (s : Store) (m : Int) :
    serverAggregate cat (r :: s) m period today =
      serverAggregate cat s m period today := by
  unfold serverAggregate
  exact List.map_congr_left
    (fun pt _ => by rw [serverMatchingEfforts_cons_out h])

/- ----------------------------------------------------------------- -/
/- Claims about windows and averaging: C1, C5, C8.                   -/
/- ----------------------------------------------------------------- -/

/-- C1 (amended): the claimed windows are those of `computeRangeForPeriod`
(src/unnamed/part_000): daily = [today, today], weekly = [today − 6, today],
monthly = [first of current month, today], yearly = [Jan 1, today]; at
today = 2024-03-15 they evaluate to the claimed concrete windows, and the
part_000 aggregation ignores every record outside the inclusive window. The
src/server.js aggregation instead starts its filter at
today − (days − 1) with days = 1/7/30/365 and ignores only records before
that start (it has no upper bound). -/
theorem C1_window_correctness :
    (∀ today : Int, computeRangeForPeriod "daily" today = (today, today)) ∧
    (∀ today : Int,
      computeRangeForPeriod "weekly" today = (today - 6, today)) ∧
    (∀ today : Int,
      computeRangeForPeriod "monthly" today = (firstOfMonth today, today)) ∧
    (∀ today : Int,
      computeRangeForPeriod "yearly" today = (firstOfYear today, today)) ∧
    windowOf "daily" (daysFromCivil 2024 3 15)
      = (daysFromCivil 2024 3 15, daysFromCivil 2024 3 15) ∧
    windowOf "weekly" (daysFromCivil 2024 3 15)
      = (daysFromCivil 2024 3 9, daysFromCivil 2024 3 15) ∧
    windowOf "monthly" (daysFromCivil 2024 3 15)
      = (daysFromCivil 2024 3 1, daysFromCivil 2024 3 15) ∧
    windowOf "yearly" (daysFromCivil 2024 3 15)
      = (daysFromCivil 2024 1 1, daysFromCivil 2024 3 15) ∧
    (∀ (cat : List Point) (s : Store) (m : Int) (period : String)
        (today : Int) (r : DailyRecord),
      r.date < (windowOf period today).1 ∨
          (windowOf period today).2 < r.date →
      aggregate cat (r :: s) m period today =
        aggregate cat s m period today) ∧
    (∀ (cat : List Point) (s : Store) (m : Int) (period : String)
        (today : Int) (r : DailyRecord),
      r.date < today - serverDays period + 1 →
      serverAggregate cat (r :: s) m period today =
        serverAggregate cat s m period today) := by
  refine ⟨fun today => by simp [computeRangeForPeriod],
    fun today => by simp [computeRangeForPeriod],
    fun today => by simp [computeRangeForPeriod],
    fun today => by simp [computeRangeForPeriod],
    by decide, by decide, by decide, by decide,
    fun cat s m period today r h => aggregate_cons_out h cat s m,
    fun cat s m period today r h => serverAggregate_cons_out h cat s m⟩

/-- C1 counterexample: in src/server.js, with today = 2024-03-15 the
monthly filter starts at 2024-02-15 (today − 29 days), which is not
2024-03-01, and a record dated 2024-03-20 — after today, outside the
claimed window [2024-03-01, 2024-03-15] — contributes its full effort to
the monthly aggregate. -/
theorem C1_counterexample :
    daysFromCivil 2024 3 15 < daysFromCivil 2024 3 20 ∧
    daysFromCivil 2024 3 15 - serverDays "monthly" + 1
      = daysFromCivil 2024 2 15 ∧
    daysFromCivil 2024 2 15 ≠ daysFromCivil 2024 3 1 ∧
    ¬(daysFromCivil 2024 3 1 ≤ daysFromCivil 2024 3 20 ∧
      daysFromCivil 2024 3 20 ≤ daysFromCivil 2024 3 15) ∧
    (serverAggregate [⟨1, "p", 1⟩] [⟨1, 1, daysFromCivil 2024 3 20, 100⟩] 1
        "monthly" (daysFromCivil 2024 3 15)).map
        ServerProgressEntry.percentage = [100] := by
  refine ⟨by decide, by decide, by decide, by decide, ?_⟩
  have h1 : serverMatchingEfforts [⟨1, 1, daysFromCivil 2024 3 20, 100⟩] 1 1
      (daysFromCivil 2024 3 15 - serverDays "monthly" + 1) = [100] := by
    decide
  unfold serverAggregate
  simp only [List.insertionSort, List.orderedInsert, List.map_cons,
    List.map_nil]
  rw [h1, avgOrZero_singleton, jsRound_intCast]

/-- C5 (amended): every row of the part_000 progress response carries the
exact arithmetic mean of the member's in-window efforts for its point
(`avgOrZero`, which on a nonempty list is sum/length), out-of-window
records do not influence it, and 20 and 80 average to exactly 50. In
src/server.js the reported percentage is `Math.round` of the mean over its
own window [today − (days − 1), ∞). -/
theorem C5_mean_percentage :
    (∀ (cat : List Point) (s : Store) (m : Int) (period : String)
        (today : Int), ∀ e ∈ aggregate cat s m period today,
      e.percentage = avgOrZero (matchingEfforts s m e.point_id
        (windowOf period today).1 (windowOf period today).2)) ∧
    (∀ l : List Int, l ≠ [] →
      avgOrZero l = (l.sum : Rat) / (l.length : Rat)) ∧
    (∀ (cat : List Point) (s : Store) (m : Int) (period : String)
        (today : Int) (r : DailyRecord),
      r.date < (windowOf period today).1 ∨
          (windowOf period today).2 < r.date →
      aggregate cat (r :: s) m period today =
        aggregate cat s m period today) ∧
    (∀ (cat : List Point) (s : Store) (m : Int) (period : String)
        (today : Int), ∀ e ∈ serverAggregate cat s m period today,
      e.percentage = jsRound (avgOrZero (serverMatchingEfforts s m e.pointId
        (today - serverDays period + 1)))) ∧
    (aggregate [⟨1, "p", 1⟩]
        [⟨1, 1, daysFromCivil 2024 3 15, 20⟩,
         ⟨1, 1, daysFromCivil 2024 3 14, 80⟩]
        1 "weekly" (daysFromCivil 2024 3 15)).map
        ProgressEntry.percentage = [50] := by
  refine ⟨fun cat s m period today e he => percentage_of_mem_aggregate he,
    ?_,
    fun cat s m period today r h => aggregate_cons_out h cat s m,
    fun cat s m period today e he => percentage_of_mem_serverAggregate he,
    ?_⟩
  · intro l hl
    unfold avgOrZero
    rw [if_neg (fun h => hl (List.length_eq_zero.mp h))]
  · have h1 : matchingEfforts
        [⟨1, 1, daysFromCivil 2024 3 15, 20⟩,
         ⟨1, 1, daysFromCivil 2024 3 14, 80⟩] 1 1
        (windowOf "weekly" (daysFromCivil 2024 3 15)).1
        (windowOf "weekly" (daysFromCivil 2024 3 15)).2 = [20, 80] := by
      decide
    rw [aggregate_def]
    simp only [List.insertionSort, List.orderedInsert, List.map_cons,
      List.map_nil]
    rw [h1]
    norm_num [avgOrZero]

/-- C5 counterexample: with in-window efforts 20 and 81, the arithmetic
mean is 101/2 = 50.5, but src/server.js reports Math.round of it, 51 —
the reported percentage is not the arithmetic mean. -/
theorem C5_counterexample :
    (serverAggregate [⟨1, "p", 1⟩]
        [⟨1, 1, daysFromCivil 2024 3 15, 20⟩,
         ⟨1, 1, daysFromCivil 2024 3 14, 81⟩]
        1 "weekly" (daysFromCivil 2024 3 15)).map
        ServerProgressEntry.percentage = [51] ∧
    avgOrZero [20, 81] = ((20 : Rat) + 81) / 2 ∧
    ((20 : Rat) + 81) / 2 ≠ 51 := by
  refine ⟨?_, by norm_num [avgOrZero], by norm_num⟩
  have h1 : serverMatchingEfforts
      [⟨1, 1, daysFromCivil 2024 3 15, 20⟩,
       ⟨1, 1, daysFromCivil 2024 3 14, 81⟩] 1 1
      (daysFromCivil 2024 3 15 - serverDays "weekly" + 1) = [20, 81] := by
    decide
  unfold serverAggregate
  simp only [List.insertionSort, List.orderedInsert, List.map_cons,
    List.map_nil]
  rw [h1, show avgOrZero [20, 81] = (101 : Rat) / 2 from by
    norm_num [avgOrZero], jsRound_eq_floor]
  norm_num

/-- The part_000 normalization sends "daily" to itself. -/
theorem windowOf_daily (today : Int) :
    windowOf "daily" today = (today, today) := by
  unfold windowOf
  rw [show normPeriod "daily" = "daily" from by decide]
  simp [computeRangeForPeriod]

/-- Any token whose lowercase form is none of weekly/monthly/yearly gets
the daily window. -/
theorem windowOf_default {period : String}
    (h : lowerString period ∉ (["weekly", "monthly", "yearly"] : List String))
    (today : Int) :
    windowOf period today = (today, today) := by
  unfold windowOf normPeriod
  by_cases hp : period = ""
  · subst hp
    rw [if_pos rfl, show lowerString "daily" = "daily" from by decide]
    simp [computeRangeForPeriod]
  · rw [if_neg hp]
    simp only [List.mem_cons, List.not_mem_nil, or_false, not_or] at h
    obtain ⟨h1, h2, h3⟩ := h
    unfold computeRangeForPeriod
    rw [if_neg h1, if_neg h2, if_neg h3]

/-- Any token other than exactly weekly/monthly/yearly keeps days = 1 in
src/server.js. -/
theorem serverDays_default {period : String}
    (h : period ∉ (["weekly", "monthly", "yearly"] : List String)) :
    serverDays period = 1 := by
  simp only [List.mem_cons, List.not_mem_nil, or_false, not_or] at h
  obtain ⟨h1, h2, h3⟩ := h
  unfold serverDays
  rw [if_neg h1, if_neg h2, if_neg h3]

/-- C8 (amended): a period token whose lowercase form is none of weekly,
monthly, yearly — in particular every genuinely unrecognized token — makes
the part_000 aggregation compute exactly the daily result (the route
lowercases the token first, so case variants such as "WEEKLY" behave as
their lowercase form instead); in src/server.js the comparison is
case-sensitive, so every token other than exactly 'weekly'/'monthly'/
'yearly' computes exactly the daily result. -/
theorem C8_invalid_period_fallback (cat : List Point) (s : Store) (m : Int)
    (period : String) (today : Int) :
    (lowerString period ∉ (["weekly", "monthly", "yearly"] : List String) →
      aggregate cat s m period today = aggregate cat s m "daily" today) ∧
    (period ∉ (["weekly", "monthly", "yearly"] : List String) →
      serverAggregate cat s m period today =
        serverAggregate cat s m "daily" today) := by
  constructor
  · intro h
    rw [aggregate_def, aggregate_def, windowOf_default h, windowOf_daily]
  · intro h
    unfold serverAggregate
    rw [serverDays_default h, show serverDays "daily" = 1 from by decide]

/-- C8 counterexample: "WEEKLY" is not one of the four lowercase period
tokens, yet the part_000 aggregation does not fall back to the daily
window: the route lowercases it to "weekly" first, and with a record three
days back the result differs from the daily result. -/
theorem C8_counterexample :
    ("WEEKLY" ∉ (["daily", "weekly", "monthly", "yearly"] : List String)) ∧
    aggregate [⟨1, "p", 1⟩] [⟨1, 1, daysFromCivil 2024 3 12, 100⟩] 1
        "WEEKLY" (daysFromCivil 2024 3 15)
      ≠ aggregate [⟨1, "p", 1⟩] [⟨1, 1, daysFromCivil 2024 3 12, 100⟩] 1
        "daily" (daysFromCivil 2024 3 15) := by
  refine ⟨by decide, ?_⟩
  have h1 : matchingEfforts [⟨1, 1, daysFromCivil 2024 3 12, 100⟩] 1 1
      (windowOf "WEEKLY" (daysFromCivil 2024 3 15)).1
      (windowOf "WEEKLY" (daysFromCivil 2024 3 15)).2 = [100] := by decide
  have h2 : matchingEfforts [⟨1, 1, daysFromCivil 2024 3 12, 100⟩] 1 1
      (windowOf "daily" (daysFromCivil 2024 3 15)).1
      (windowOf "daily" (daysFromCivil 2024 3 15)).2 = [] := by decide
  intro heq
  have hmap := congrArg (List.map ProgressEntry.percentage) heq
  rw [aggregate_def, aggregate_def] at hmap
  simp only [List.insertionSort, List.orderedInsert, List.map_cons,
    List.map_nil] at hmap
  rw [h1, h2, avgOrZero_singleton, avgOrZero_nil] at hmap
  norm_num at hmap

/- ----------------------------------------------------------------- -/
/- Claim about the single-day read: C10.                             -/
/- ----------------------------------------------------------------- -/

/-- C10: the src/server.js single-day read returns exactly the point ids
that have a stored record for that member on that date, each mapped to its
stored effort; a point with no record that day is absent from the mapping
(no zero-filling, unlike the progress aggregation). -/
theorem C10_single_day_read (s : Store) (m d : Int) :
    (∀ p e : Int, (p, e) ∈ getDailyRecords s m d ↔
      (⟨m, p, d, e⟩ : DailyRecord) ∈ s) ∧
    (∀ p : Int, p ∈ (getDailyRecords s m d).map Prod.fst ↔
      ∃ e : Int, (⟨m, p, d, e⟩ : DailyRecord) ∈ s) := by
  have key : ∀ p e : Int, (p, e) ∈ getDailyRecords s m d ↔
      (⟨m, p, d, e⟩ : DailyRecord) ∈ s := by
    intro p e
    unfold getDailyRecords
    simp only [List.mem_map, List.mem_filter, Bool.and_eq_true, beq_iff_eq,
      Prod.mk.injEq]
    constructor
    · rintro ⟨r, ⟨hr, hm, hd⟩, hp, he⟩
      cases r
      simp_all
    · intro hmem
      exact ⟨⟨m, p, d, e⟩, ⟨hmem, rfl, rfl⟩, rfl, rfl⟩
  refine ⟨key, fun p => ?_⟩
  simp only [List.mem_map]
  constructor
  · rintro ⟨⟨p', e⟩, hpe, rfl⟩
    exact ⟨e, (key p' e).mp hpe⟩
  · rintro ⟨e, he⟩
    exact ⟨(p, e), (key p e).mpr he, rfl⟩

end BK
